import Mathlib

/-!
Verification of the conversion dispatch core of the `anything-to-markdown`
repository (a TypeScript port of a Markdown converter).  The embedding below
translates `MarkdownConverter` (registry, candidate-extension resolver,
dispatch loop, output normalization), the gates of the five built-in
converters, and the small slice of the `mime-types` library behaviour the
code depends on.  External parsers (cheerio, turndown, pdf-parse) and the
file system are treated as an opaque `Oracle`, matching the repository's own
view of them as capability providers.
-/

namespace AnyToMd

/-- `DocumentConverterResult` (types.ts): title, text content, plus any extra
metadata keys a converter attaches to the returned object. -/
structure DocumentConverterResult where
  title : Option String
  textContent : String
  extra : List (String × String) := []
  deriving Repr, DecidableEq

/-- `ConvertOptions` (types.ts): the recognized keys `fileExtension` and `url`,
plus arbitrary passthrough entries (the index signature), forwarded verbatim. -/
structure ConvertOptions where
  fileExtension : Option String := none
  url : Option String := none
  extra : List (String × String) := []
  deriving Repr, DecidableEq

/-- Outcome of one `converter.convert(localPath, options)` call: a non-null
result, a `null` return (decline), or a thrown error carried as the string the
dispatch loop would interpolate into its trace. -/
inductive ConvertOutcome where
  | success (r : DocumentConverterResult)
  | declined
  | failed (msg : String)
  deriving Repr, DecidableEq

/-- A registered page converter: the `DocumentConverter.convert` capability. -/
def Converter := String → ConvertOptions → ConvertOutcome

/-! ## JavaScript string helpers used by the normalization step

`result.textContent.split(/\r?\n/).map(line => line.trimRight()).join('\n')
  .replace(/\n{3,}/g, '\n\n')`
-/

/-- The whitespace characters recognized by JavaScript `trimRight`/`trim`
(WhiteSpace plus LineTerminator productions). -/
def jsWhitespaceChars : List Char :=
  ['\t', '\n', Char.ofNat 11, Char.ofNat 12, '\r', ' ',
   Char.ofNat 0x00a0, Char.ofNat 0x1680,
   Char.ofNat 0x2000, Char.ofNat 0x2001, Char.ofNat 0x2002, Char.ofNat 0x2003,
   Char.ofNat 0x2004, Char.ofNat 0x2005, Char.ofNat 0x2006, Char.ofNat 0x2007,
   Char.ofNat 0x2008, Char.ofNat 0x2009, Char.ofNat 0x200a,
   Char.ofNat 0x2028, Char.ofNat 0x2029, Char.ofNat 0x202f,
   Char.ofNat 0x205f, Char.ofNat 0x3000, Char.ofNat 0xfeff]

def jsIsWhitespace (c : Char) : Bool := jsWhitespaceChars.contains c

/-- A `split(/\r?\n/)` match consumes a `\n` together with a `\r` standing
immediately before it in the input.  `removeCRLF` deletes exactly those `\r`
characters, so splitting at bare `\n` afterwards yields the regex split. -/
def removeCRLF : List Char → List Char
  | [] => []
  | [c] => [c]
  | c :: c2 :: rest =>
    if c = '\r' ∧ c2 = '\n' then removeCRLF (c2 :: rest)
    else c :: removeCRLF (c2 :: rest)

/-- Split at `'\n'`; JavaScript `split` semantics (a trailing separator yields a
final empty segment, the empty string yields one empty segment). -/
def splitNLAux (acc : List Char) : List Char → List (List Char)
  | [] => [acc.reverse]
  | c :: rest =>
    if c = '\n' then acc.reverse :: splitNLAux [] rest
    else splitNLAux (c :: acc) rest

def splitNL (l : List Char) : List (List Char) := splitNLAux [] l

/-- `split(/\r?\n/)` of the dispatch loop's normalization step. -/
def splitLines (l : List Char) : List (List Char) := splitNL (removeCRLF l)

/-- JavaScript `String.prototype.trimRight` on a character list. -/
def jsTrimRightData (l : List Char) : List Char :=
  (l.reverse.dropWhile jsIsWhitespace).reverse

/-- JavaScript `String.prototype.trim` on a character list. -/
def jsTrimData (l : List Char) : List Char :=
  jsTrimRightData (l.dropWhile jsIsWhitespace)

/-- `Array.prototype.join('\n')`. -/
def joinNL : List (List Char) → List Char
  | [] => []
  | [m] => m
  | m :: ls => m ++ '\n' :: joinNL ls

/-- `replace(/\n{3,}/g, '\n\n')`: keep the first two `\n` of each maximal run,
drop the rest.  `n` counts the consecutive newlines already emitted. -/
def collapseAux : Nat → List Char → List Char
  | _, [] => []
  | n, c :: rest =>
    if c = '\n' then
      if 2 ≤ n then collapseAux n rest else c :: collapseAux (n + 1) rest
    else c :: collapseAux 0 rest

def collapseNL (l : List Char) : List Char := collapseAux 0 l

/-- The output normalization of `MarkdownConverter._convert`: strip trailing
whitespace from every line, then collapse runs of three or more newlines to
exactly two. -/
def normalizeChars (l : List Char) : List Char :=
  collapseNL (joinNL ((splitLines l).map jsTrimRightData))

def normalizeText (s : String) : String := String.mk (normalizeChars s.data)

def normalizeResult (r : DocumentConverterResult) : DocumentConverterResult :=
  { r with textContent := normalizeText r.textContent }

/-- `pat` is an initial segment of the second list. -/
def leadsWith : List Char → List Char → Bool
  | [], _ => true
  | _ :: _, [] => false
  | a :: pa, b :: l => a == b && leadsWith pa l

/-- `pat` occurs as a contiguous substring of the second list. -/
def occursIn (pat : List Char) : List Char → Bool
  | [] => leadsWith pat []
  | l@(_ :: rest) => leadsWith pat l || occursIn pat rest

/-- `String.prototype.startsWith`. -/
def strLeads (pre s : String) : Bool := leadsWith pre.data s.data

/-- `String.prototype.toLowerCase` (ASCII letters; the extensions the code
compares are ASCII). -/
def lowerStr (s : String) : String := String.mk (s.data.map Char.toLower)

/-- JavaScript `split` with a one-character separator. -/
def splitOnCharAux (sep : Char) (acc : List Char) : List Char → List (List Char)
  | [] => [acc.reverse]
  | c :: rest =>
    if c = sep then acc.reverse :: splitOnCharAux sep [] rest
    else splitOnCharAux sep (c :: acc) rest

def jsSplitOnChar (sep : Char) (s : String) : List String :=
  (splitOnCharAux sep [] s.data).map String.mk

/-! ## Dispatch engine (`MarkdownConverter._convert`) -/

/-- The per-trial copy of the hints: `{ ...options }` with `fileExtension`
overwritten to the candidate, or deleted for the `null` sentinel. -/
def setTrialExt (opts : ConvertOptions) (e : Option String) : ConvertOptions :=
  { opts with fileExtension := e }

/-- One converter invocation of the inner loop. -/
def runTrial (path : String) (opts : ConvertOptions)
    (t : Option String × Converter) : ConvertOutcome :=
  t.2 path (setTrialExt opts t.1)

/-- The trial sequence: candidate extensions in the outer loop, registered
converters (registry order) in the inner loop. -/
def trialList (exts : List (Option String)) (cs : List Converter) :
    List (Option String × Converter) :=
  match exts with
  | [] => []
  | e :: rest => cs.map (fun c => (e, c)) ++ trialList rest cs

/-- `const extensionsToTry = [...extensions, null]` — the `null` sentinel trial
is appended last. -/
def extsToTry (extensions : List String) : List (Option String) :=
  extensions.map some ++ [none]

/-- The nested trial loop, flattened over `trialList`.  A non-null result wins
immediately; a `null` moves on; a thrown error **replaces** the running trace
(`errorTrace = `\n\n${error}``, an assignment in the source) and moves on. -/
def dispatchLoop (path : String) (opts : ConvertOptions) :
    List (Option String × Converter) → String → Except String DocumentConverterResult
  | [], trace => .error trace
  | t :: rest, trace =>
    match runTrial path opts t with
    | .success r => .ok r
    | .declined => dispatchLoop path opts rest trace
    | .failed msg => dispatchLoop path opts rest ("\n\n" ++ msg)

/-- The trace value the loop holds after passing a block of trials none of
which succeeded (the last thrown error wins; declines leave it unchanged). -/
def traceAfter (path : String) (opts : ConvertOptions) :
    List (Option String × Converter) → String → String
  | [], trace => trace
  | t :: L, trace =>
    match runTrial path opts t with
    | .failed m => traceAfter path opts L ("\n\n" ++ m)
    | _ => traceAfter path opts L trace

/-- Result of `_convert` at the dispatch boundary: success, or one of the two
typed failures (`FileConversionException` / `UnsupportedFormatException`). -/
inductive DispatchResult where
  | success (r : DocumentConverterResult)
  | fileConversionError (msg : String)
  | unsupportedFormat (msg : String)
  deriving Repr, DecidableEq

/-- `MarkdownConverter._convert`: run the trials, normalize on success,
otherwise raise conversion-failure when the trace is non-empty and
unsupported-format when it is empty.  `${extensions}` renders a JavaScript
array as its elements joined by `,`. -/
def convertCore (cs : List Converter) (path : String) (extensions : List String)
    (opts : ConvertOptions) : DispatchResult :=
  match dispatchLoop path opts (trialList (extsToTry extensions) cs) "" with
  | .ok r => .success (normalizeResult r)
  | .error trace =>
    if trace.length > 0 then
      .fileConversionError
        ("Could not convert '" ++ path ++ "' to Markdown. File type was recognized as "
          ++ String.intercalate "," extensions
          ++ ". While converting the file, the following error was encountered:" ++ trace)
    else
      .unsupportedFormat
        ("Could not convert '" ++ path ++ "' to Markdown. The formats "
          ++ String.intercalate "," extensions ++ " are not supported.")

/-! ## Converter registry -/

/-- `registerPageConverter`: `this.pageConverters.unshift(converter)`. -/
def registerPageConverter (c : Converter) (regs : List Converter) : List Converter :=
  c :: regs

/-- Registering a batch of converters in the given order, starting from an
existing registry state. -/
def applyRegistrations (rs : List Converter) (init : List Converter) : List Converter :=
  rs.foldl (fun regs c => registerPageConverter c regs) init

/-! ## The `mime-types` library slice (`lookup`)

`lookup(path)` extracts the extension of `'x.' + path` (Node `path.extname`)
and looks it up in the mime database; it returns `false` (here `none`) when no
extension is found or the extension is unknown.  Note `lookup` maps a *path*
to a mime type; there is no inverse mapping in it. -/

/-- A finite excerpt of the mime database restricted to common extensions;
keys are lower-case extensions without the dot. -/
def mimeDB : List (String × String) :=
  [("txt", "text/plain"), ("html", "text/html"), ("htm", "text/html"),
   ("md", "text/markdown"), ("csv", "text/csv"), ("css", "text/css"),
   ("pdf", "application/pdf"), ("json", "application/json"),
   ("php", "application/x-httpd-php"), ("png", "image/png"),
   ("jpg", "image/jpeg"), ("zip", "application/zip")]

/-- The part of a path after its last `/` (Node basename, posix). -/
def basenameData (l : List Char) : List Char :=
  (l.reverse.takeWhile (· != '/')).reverse

/-- Node `path.extname`: the suffix of the basename from its last `.`;
empty when there is no dot or the only dot leads the basename. -/
def extnameData (l : List Char) : List Char :=
  let b := basenameData l
  let tl := b.reverse.takeWhile (· != '.')
  if tl.length == b.length then []
  else if tl.length + 1 == b.length then []
  else '.' :: tl.reverse

/-- `mime-types` `lookup`: extension of `'x.' + path`, lower-cased, dot
stripped, then the database lookup. -/
def mimeLookup (path : String) : Option String :=
  match (extnameData ('x' :: '.' :: path.data)).map Char.toLower with
  | [] => none
  | _ :: tl => if tl.isEmpty then none else List.lookup (String.mk tl) mimeDB

/-! ## The five built-in converters

Each converter's applicability gate is translated from its source; the file
system and the external parsers are an opaque `Oracle`.  A converter's thrown
error is carried as the `${error}` rendering the dispatch loop would see. -/

/-- The external collaborators: file reads may fail with an error string; the
parsing pipelines (cheerio/turndown, the Wikipedia and YouTube scrapers,
pdf-parse) are opaque total functions of the file content. -/
structure Oracle where
  readFileUtf8 : String → Except String String
  htmlRender : String → DocumentConverterResult
  wikiRender : String → DocumentConverterResult
  youtubeRender : String → DocumentConverterResult
  pdfParseFile : String → Except String (Option String × String)

/-- `PlainTextConverter.convert`: guess a content type from
`'__placeholder' + (options.fileExtension || '')`, accept only `text/*`. -/
def plainTextConvert (o : Oracle) : Converter := fun path opts =>
  match mimeLookup ("__placeholder" ++ (opts.fileExtension.getD "")) with
  | none => .declined
  | some ct =>
    if strLeads "text/" ct then
      match o.readFileUtf8 path with
      | .ok text => .success { title := none, textContent := text }
      | .error e => .failed ("Error: Failed to read file: " ++ e)
    else .declined

/-- The shared extension gate of the HTML-family converters:
`['.html', '.htm'].includes(extension.toLowerCase())`. -/
def htmlExtGate (opts : ConvertOptions) : Bool :=
  let ext := lowerStr (opts.fileExtension.getD "")
  ext == ".html" || ext == ".htm"

/-- `HtmlConverter.convert`. -/
def htmlConvert (o : Oracle) : Converter := fun path opts =>
  if htmlExtGate opts then
    match o.readFileUtf8 path with
    | .ok content => .success (o.htmlRender content)
    | .error e => .failed ("Error: Failed to read HTML file: " ++ e)
  else .declined

def isAsciiLetterCh (c : Char) : Bool :=
  (decide ('a' ≤ c) && decide (c ≤ 'z')) || (decide ('A' ≤ c) && decide (c ≤ 'Z'))

/-- `url.match(/^https?:\/\/[a-zA-Z]{2,3}\.wikipedia\.org\//)`: scheme, a run
of exactly two or three ASCII letters, then `.wikipedia.org/`. -/
def wikipediaUrlMatch (url : String) : Bool :=
  let rest :=
    if strLeads "https://" url then some (url.drop 8)
    else if strLeads "http://" url then some (url.drop 7)
    else none
  match rest with
  | none => false
  | some r =>
    let letters := r.data.takeWhile isAsciiLetterCh
    (letters.length == 2 || letters.length == 3) &&
      leadsWith ".wikipedia.org/".data (r.data.drop letters.length)

/-- `WikipediaConverter.convert`: the HTML extension gate plus the URL gate. -/
def wikipediaConvert (o : Oracle) : Converter := fun path opts =>
  if htmlExtGate opts then
    if wikipediaUrlMatch (opts.url.getD "") then
      match o.readFileUtf8 path with
      | .ok content => .success (o.wikiRender content)
      | .error e => .failed ("Error: Failed to process Wikipedia page: " ++ e)
    else .declined
  else .declined

/-- `YouTubeConverter.convert`: the HTML extension gate plus the URL gate. -/
def youtubeConvert (o : Oracle) : Converter := fun path opts =>
  if htmlExtGate opts then
    if strLeads "https://www.youtube.com/watch?" (opts.url.getD "") then
      match o.readFileUtf8 path with
      | .ok content => .success (o.youtubeRender content)
      | .error e => .failed ("Error: Failed to process YouTube page: " ++ e)
    else .declined
  else .declined

/-- `PdfConverter.convert`: bail unless `extension.toLowerCase() === '.pdf'`. -/
def pdfConvert (o : Oracle) : Converter := fun path opts =>
  if lowerStr (opts.fileExtension.getD "") == ".pdf" then
    match o.pdfParseFile path with
    | .ok (title, text) => .success { title := title, textContent := text }
    | .error e => .failed ("Error: Failed to parse PDF: " ++ e)
  else .declined

/-- The constructor of `MarkdownConverter` registers the built-ins in base
order plain-text, HTML, Wikipedia, YouTube, PDF (each via `unshift`). -/
def builtinRegistry (o : Oracle) : List Converter :=
  applyRegistrations
    [plainTextConvert o, htmlConvert o, wikipediaConvert o, youtubeConvert o, pdfConvert o]
    []

/-! ## Extension candidate resolver -/

/-- `MarkdownConverter._appendExt`: trim the candidate and push it unless the
trimmed string is empty. -/
def appendExt (exts : List String) (ext : String) : List String :=
  let t := String.mk (jsTrimData ext.data)
  if t = "" then exts else exts ++ [t]

/-- The explicit override seed: `if (options.fileExtension)
extensions.push(options.fileExtension)` — pushed untrimmed; the empty string
is falsy and skipped. -/
def overrideExts (opts : ConvertOptions) : List String :=
  match opts.fileExtension with
  | some e => if e = "" then [] else [e]
  | none => []

/-- `convertLocal`'s candidate list: the override, then the path suffix
(`path.split('.')`, last part, dot-prefixed) when the path contains a dot. -/
def localExtensions (path : String) (opts : ConvertOptions) : List String :=
  let exts := overrideExts opts
  let parts := jsSplitOnChar '.' path
  if parts.length > 1 then appendExt exts ("." ++ parts.getLastD "") else exts

/-- The response fields `convertResponse` reads; absent headers are the empty
string (`|| ''`), an absent `config.url` is `none`. -/
structure ResponseModel where
  contentTypeHeader : String
  contentDisposition : String
  configUrl : Option String
  deriving Repr, DecidableEq

/-- `(response.headers['content-type'] || '').split(';')[0]`. -/
def contentTypeOf (resp : ResponseModel) : String :=
  (jsSplitOnChar ';' resp.contentTypeHeader).headD ""

def isQuoteChar (c : Char) : Bool := c == Char.ofNat 34 || c == Char.ofNat 39

/-- The regex `/filename=([^;]+)/`: the leftmost position where the literal
`filename=` is followed by at least one non-`;` character; the capture is the
maximal run of non-`;` characters after the literal. -/
def dispositionCapture : List Char → Option (List Char)
  | [] => none
  | l@(_ :: rest) =>
    if leadsWith "filename=".data l then
      let cap := (l.drop 9).takeWhile (· != ';')
      if cap.isEmpty then dispositionCapture rest else some cap
    else dispositionCapture rest

/-- The content-disposition filename: the regex capture with every single or
double quote removed (`.replace(/['"]/g, '')`). -/
def filenameFromDisposition (s : String) : Option String :=
  (dispositionCapture s.data).map fun cap =>
    String.mk (cap.filter (fun c => !isQuoteChar c))

/-- Modelled from the spec: WHATWG URL parsing (`new URL(...)`) is a platform
API whose source is outside this repository.  Modelled for absolute http and
https URLs: `pathname` is the `/`-led section between the host and the first
`?` or `#`, and `/` when that section is empty; any other input throws, which
`convertResponse` swallows — modelled as `none`. -/
def urlPathname (u : String) : Option String :=
  let rest :=
    if strLeads "https://" u then some (u.drop 8)
    else if strLeads "http://" u then some (u.drop 7)
    else none
  rest.bind fun r =>
    if r = "" then none
    else
      let path := (r.data.dropWhile (· != '/')).takeWhile (fun c => c != '?' && c != '#')
      some (String.mk (if path.isEmpty then ['/'] else path))

/-- The raw candidate strings `convertResponse` feeds to `_appendExt`, in
source order: the mime lookup of the declared content type (when the header is
non-empty and the lookup yields a value, appended as `'.' + ext`), the
content-disposition filename suffix, the URL path suffix. -/
def responseCandidates (resp : ResponseModel) : List String :=
  (match (if contentTypeOf resp ≠ "" then mimeLookup (contentTypeOf resp) else none) with
   | some e => ["." ++ e]
   | none => []) ++
  (match filenameFromDisposition resp.contentDisposition with
   | some fname =>
     let parts := jsSplitOnChar '.' fname
     if parts.length > 1 then ["." ++ parts.getLastD ""] else []
   | none => []) ++
  (match urlPathname ((resp.configUrl).getD "") with
   | some pn =>
     let parts := jsSplitOnChar '.' pn
     if parts.length > 1 then ["." ++ parts.getLastD ""] else []
   | none => [])

/-- The candidate-extension list `convertResponse` hands to `_convert`:
the untrimmed override seed, then each source candidate through `_appendExt`. -/
def responseExtensions (resp : ResponseModel) (opts : ConvertOptions) : List String :=
  (responseCandidates resp).foldl appendExt (overrideExts opts)

/-- `convertResponse` after the temporary file is written: dispatch against the
temp path with the derived candidates and `url` overwritten from the request. -/
def convertResponseModel (o : Oracle) (tempPath : String) (resp : ResponseModel)
    (opts : ConvertOptions) : DispatchResult :=
  convertCore (builtinRegistry o) tempPath (responseExtensions resp opts)
    { opts with url := resp.configUrl }

/-! ## Scan predicates used by the normalization proofs -/

/-- Scan invariant of normalized text: no `\n` directly preceded by a
non-newline whitespace character, and the text does not end in one.  `w`
records whether the previous character was non-newline whitespace. -/
def goodAux : Bool → List Char → Bool
  | w, [] => !w
  | w, c :: rest =>
    if c = '\n' then !w && goodAux false rest
    else goodAux (jsIsWhitespace c) rest

def good (l : List Char) : Bool := goodAux false l

/-- Whether the last character of `m` is whitespace (`w` when `m` is empty). -/
def wsLast (w : Bool) (m : List Char) : Bool :=
  m.foldl (fun _ c => jsIsWhitespace c) w

/-! ## Concrete converters used by witnesses and counterexamples -/

def declConv : Converter := fun _ _ => .declined

def succConv : Converter := fun _ _ =>
  .success { title := some "T", textContent := "ok" }

def errConvOne : Converter := fun _ _ => .failed "boom-one"

def errConvTwo : Converter := fun _ _ => .failed "boom-two"

/-- A fixed oracle for witnesses. -/
def constOracle : Oracle where
  readFileUtf8 := fun _ => .ok "<html></html>"
  htmlRender := fun s => { title := none, textContent := s }
  wikiRender := fun s => { title := some "W", textContent := s }
  youtubeRender := fun s => { title := none, textContent := s }
  pdfParseFile := fun _ => .error "nope"

/-! ## Dispatch loop lemmas -/

theorem dispatchLoop_append (path : String) (opts : ConvertOptions)
    (L : List (Option String × Converter)) :
    ∀ (rest : List (Option String × Converter)) (trace : String),
      (∀ t ∈ L, ∀ r, runTrial path opts t ≠ .success r) →
      dispatchLoop path opts (L ++ rest) trace =
        dispatchLoop path opts rest (traceAfter path opts L trace) := by
  induction L with
  | nil => intro rest trace _; rfl
  | cons t L ih =>
    intro rest trace h
    cases hx : runTrial path opts t with
    | success r => exact absurd hx (h t (by simp) r)
    | declined =>
      show dispatchLoop path opts (t :: (L ++ rest)) trace = _
      simp only [dispatchLoop, traceAfter, hx]
      exact ih rest trace fun t' ht' => h t' (by simp [ht'])
    | failed m =>
      show dispatchLoop path opts (t :: (L ++ rest)) trace = _
      simp only [dispatchLoop, traceAfter, hx]
      exact ih rest ("\n\n" ++ m) fun t' ht' => h t' (by simp [ht'])

theorem dispatchLoop_all_declined (path : String) (opts : ConvertOptions)
    (L : List (Option String × Converter)) :
    ∀ trace : String,
      (∀ t ∈ L, runTrial path opts t = .declined) →
      dispatchLoop path opts L trace = .error trace := by
  induction L with
  | nil => intro trace _; rfl
  | cons t L ih =>
    intro trace h
    show dispatchLoop path opts (t :: L) trace = _
    simp only [dispatchLoop, h t (by simp)]
    exact ih trace fun t' ht' => h t' (by simp [ht'])

/-- Claim C1: the dispatch engine iterates candidate extensions in the outer
loop and registered converters in the inner loop; the first trial to return a
non-null result is accepted at once — the loop result does not depend on any
later trial (`L2'` is arbitrary), no further converter or extension is
invoked, and the accepted result is returned after normalization. -/
theorem first_success_accepted (cs : List Converter) (path : String)
    (extensions : List String) (opts : ConvertOptions)
    (L1 L2 : List (Option String × Converter)) (e : Option String) (c : Converter)
    (r : DocumentConverterResult)
    (hsplit : trialList (extsToTry extensions) cs = L1 ++ (e, c) :: L2)
    (hbefore : ∀ t ∈ L1, ∀ r', runTrial path opts t ≠ .success r')
    (hhit : runTrial path opts (e, c) = .success r) :
    convertCore cs path extensions opts = .success (normalizeResult r) ∧
      ∀ (L2' : List (Option String × Converter)) (trace : String),
        dispatchLoop path opts (L1 ++ (e, c) :: L2') trace = .ok r := by
  have key : ∀ (L2' : List (Option String × Converter)) (trace : String),
      dispatchLoop path opts (L1 ++ (e, c) :: L2') trace = .ok r := by
    intro L2' trace
    rw [dispatchLoop_append path opts L1 _ trace hbefore]
    simp [dispatchLoop, hhit]
  refine ⟨?_, key⟩
  unfold convertCore
  rw [hsplit, key L2 ""]

theorem first_success_accepted_witness :
    trialList (extsToTry []) [declConv, succConv] =
        [(none, declConv)] ++ (none, succConv) :: [] ∧
      convertCore [declConv, succConv] "p" [] {} =
        .success (normalizeResult { title := some "T", textContent := "ok" }) := by
  refine ⟨rfl, ?_⟩
  exact (first_success_accepted [declConv, succConv] "p" [] {}
    [(none, declConv)] [] none succConv { title := some "T", textContent := "ok" }
    rfl (by intro t ht r'; simp at ht; subst ht; simp [runTrial, declConv]) rfl).1

/-- Claim C2: when every converter returns null on every candidate extension
(the sentinel trial included) and none throws, `_convert` raises
`UnsupportedFormatException`, whose message carries the attempted extension
list in the order it was built (a JavaScript array renders as its elements
joined by commas). -/
theorem all_declined_unsupported (cs : List Converter) (path : String)
    (extensions : List String) (opts : ConvertOptions)
    (h : ∀ t ∈ trialList (extsToTry extensions) cs, runTrial path opts t = .declined) :
    convertCore cs path extensions opts =
      .unsupportedFormat ("Could not convert '" ++ path ++ "' to Markdown. The formats "
        ++ String.intercalate "," extensions ++ " are not supported.") := by
  unfold convertCore
  rw [dispatchLoop_all_declined path opts _ "" h]
  rfl

theorem all_declined_unsupported_witness :
    (∀ t ∈ trialList (extsToTry [".zzz"]) [declConv], runTrial "p" {} t = .declined) ∧
      convertCore [declConv] "p" [".zzz"] {} =
        .unsupportedFormat "Could not convert 'p' to Markdown. The formats .zzz are not supported." := by
  have h : ∀ t ∈ trialList (extsToTry [".zzz"]) [declConv], runTrial "p" {} t = .declined := by
    intro t ht
    simp [trialList, extsToTry] at ht
    rcases ht with h1 | h1 <;> subst h1 <;> rfl
  exact ⟨h, all_declined_unsupported [declConv] "p" [".zzz"] {} h⟩

/-- Claim C3 counterexample: two converters throw (`boom-one`, then
`boom-two`) and none succeeds; the raised conversion-failure message carries
only the most recent error — `boom-one` does not occur in it, because the
source assigns (`errorTrace = ...`) instead of appending. -/
theorem error_trace_counterexample :
    convertCore [errConvOne, errConvTwo] "f" [] {} =
      .fileConversionError
        "Could not convert 'f' to Markdown. File type was recognized as . While converting the file, the following error was encountered:\n\nboom-two" ∧
      occursIn "boom-one".data
        "Could not convert 'f' to Markdown. File type was recognized as . While converting the file, the following error was encountered:\n\nboom-two".data = false ∧
      occursIn "boom-two".data
        "Could not convert 'f' to Markdown. File type was recognized as . While converting the file, the following error was encountered:\n\nboom-two".data = true := by
  refine ⟨rfl, by decide, by decide⟩

/-- Claim C3, amended: when at least one trial throws and none succeeds,
`_convert` raises `FileConversionException`; its message carries the attempted
extension list and the error trace, but the trace holds only the *most
recently* captured error (each catch overwrites it), not every captured
error. -/
theorem last_error_reported (cs : List Converter) (path : String)
    (extensions : List String) (opts : ConvertOptions)
    (L1 L2 : List (Option String × Converter)) (t : Option String × Converter) (m : String)
    (hsplit : trialList (extsToTry extensions) cs = L1 ++ t :: L2)
    (hL1 : ∀ t' ∈ L1, ∀ r, runTrial path opts t' ≠ .success r)
    (hfail : runTrial path opts t = .failed m)
    (hafter : ∀ t' ∈ L2, runTrial path opts t' = .declined) :
    convertCore cs path extensions opts =
      .fileConversionError ("Could not convert '" ++ path
        ++ "' to Markdown. File type was recognized as "
        ++ String.intercalate "," extensions
        ++ ". While converting the file, the following error was encountered:"
        ++ ("\n\n" ++ m)) := by
  have hstep : dispatchLoop path opts (t :: L2) (traceAfter path opts L1 "") =
      dispatchLoop path opts L2 ("\n\n" ++ m) := by
    simp only [dispatchLoop, hfail]
  have hloop : dispatchLoop path opts (trialList (extsToTry extensions) cs) "" =
      .error ("\n\n" ++ m) := by
    rw [hsplit, dispatchLoop_append path opts L1 _ "" hL1, hstep,
      dispatchLoop_all_declined path opts L2 _ hafter]
  have hlen : ("\n\n" ++ m).length > 0 := by
    rw [String.length_append]
    have h2 : ("\n\n" : String).length = 2 := rfl
    omega
  unfold convertCore
  rw [hloop]
  dsimp only
  rw [if_pos hlen]

theorem last_error_reported_witness :
    trialList (extsToTry []) [errConvOne, declConv] =
        [] ++ (none, errConvOne) :: [(none, declConv)] ∧
      convertCore [errConvOne, declConv] "f" [] {} =
        .fileConversionError ("Could not convert 'f'"
          ++ " to Markdown. File type was recognized as "
          ++ "" ++ ". While converting the file, the following error was encountered:"
          ++ ("\n\n" ++ "boom-one")) := by
  refine ⟨rfl, ?_⟩
  exact last_error_reported [errConvOne, declConv] "f" [] {}
    [] [(none, declConv)] (none, errConvOne) "boom-one" rfl
    (by intro t' ht'; simp at ht') rfl
    (by intro t' ht'; simp at ht'; subst ht'; rfl)

/-- Claim C4: `registerPageConverter` unshifts, so a batch of registrations
prepends in reverse order; a converter registered later (index `j` in
registration order) occupies a strictly earlier registry position than one
registered earlier (index `i < j`), and within any extension candidate the
inner loop tries converters exactly in registry order. -/
theorem register_order (init rs : List Converter) (i j : Nat) (e : Option String)
    (hij : i < j) (hj : j < rs.length) :
    applyRegistrations rs init = rs.reverse ++ init ∧
      (applyRegistrations rs init)[rs.length - 1 - j]? = rs[j]? ∧
      (applyRegistrations rs init)[rs.length - 1 - i]? = rs[i]? ∧
      rs.length - 1 - j < rs.length - 1 - i ∧
      trialList [e] (applyRegistrations rs init) =
        (applyRegistrations rs init).map (fun c => (e, c)) := by
  have hfold : ∀ (rs init : List Converter), applyRegistrations rs init = rs.reverse ++ init := by
    intro rs
    induction rs with
    | nil => intro init; rfl
    | cons c rs ih =>
      intro init
      show applyRegistrations rs (c :: init) = _
      rw [ih (c :: init)]
      simp
  have hi : i < rs.length := lt_trans hij hj
  have hjr : rs.length - 1 - j < rs.reverse.length := by
    simp only [List.length_reverse]; omega
  have hir : rs.length - 1 - i < rs.reverse.length := by
    simp only [List.length_reverse]; omega
  refine ⟨hfold rs init, ?_, ?_, by omega, ?_⟩
  · rw [hfold rs init, List.getElem?_append_left hjr, List.getElem?_reverse (by omega)]
    congr 1
    omega
  · rw [hfold rs init, List.getElem?_append_left hir, List.getElem?_reverse (by omega)]
    congr 1
    omega
  · show List.map _ _ ++ trialList [] _ = _
    simp [trialList]

theorem register_order_witness :
    0 < 1 ∧ 1 < [errConvOne, errConvTwo].length ∧
      (applyRegistrations [errConvOne, errConvTwo] [] = [errConvTwo, errConvOne] ∧
        (applyRegistrations [errConvOne, errConvTwo] [])[0]? =
          [errConvOne, errConvTwo][1]? ∧
        (applyRegistrations [errConvOne, errConvTwo] [])[1]? =
          [errConvOne, errConvTwo][0]? ∧
        (0 : Nat) < 1 ∧
        trialList [none] (applyRegistrations [errConvOne, errConvTwo] []) =
          (applyRegistrations [errConvOne, errConvTwo] []).map (fun c => (none, c))) :=
  ⟨Nat.zero_lt_one, by simp,
    register_order [] [errConvOne, errConvTwo] 0 1 none Nat.zero_lt_one (by simp)⟩

/-- Claim C9: each trial receives a fresh copy of the caller's hints whose
`fileExtension` is overwritten to the current candidate (or removed, for the
sentinel trial, which is appended last) while every other field is the
caller's; the caller's hints value itself is never modified — the engine only
ever builds `setTrialExt opts e`, a new record. -/
theorem trial_options_frame (opts : ConvertOptions) (extensions : List String) :
    extsToTry extensions = extensions.map some ++ [none] ∧
      (∀ (e : Option String) (c : Converter) (path : String),
        runTrial path opts (e, c) =
          c path { fileExtension := e, url := opts.url, extra := opts.extra }) ∧
      (∀ e : Option String,
        (setTrialExt opts e).fileExtension = e ∧ (setTrialExt opts e).url = opts.url ∧
          (setTrialExt opts e).extra = opts.extra) :=
  ⟨rfl, fun _ _ _ => rfl, fun _ => ⟨rfl, rfl, rfl⟩⟩

/-! ## Normalization: rewrite equations for the scan functions -/

theorem goodAux_nil (w : Bool) : goodAux w [] = !w := rfl

theorem goodAux_nl (w : Bool) (rest : List Char) :
    goodAux w ('\n' :: rest) = (!w && goodAux false rest) := by
  simp [goodAux]

theorem goodAux_other {c : Char} (h : c ≠ '\n') (w : Bool) (rest : List Char) :
    goodAux w (c :: rest) = goodAux (jsIsWhitespace c) rest := by
  simp [goodAux, h]

theorem collapseAux_nl_ge (n : Nat) (rest : List Char) (h : 2 ≤ n) :
    collapseAux n ('\n' :: rest) = collapseAux n rest := by
  simp [collapseAux, h]

theorem collapseAux_nl_lt (n : Nat) (rest : List Char) (h : ¬ 2 ≤ n) :
    collapseAux n ('\n' :: rest) = '\n' :: collapseAux (n + 1) rest := by
  simp [collapseAux, h]

theorem collapseAux_other {c : Char} (h : c ≠ '\n') (n : Nat) (rest : List Char) :
    collapseAux n (c :: rest) = c :: collapseAux 0 rest := by
  simp [collapseAux, h]

theorem removeCRLF_two {c c2 : Char} (h : ¬(c = '\r' ∧ c2 = '\n')) (rest : List Char) :
    removeCRLF (c :: c2 :: rest) = c :: removeCRLF (c2 :: rest) := by
  simp [removeCRLF, h]

theorem splitNLAux_nil (acc : List Char) : splitNLAux acc [] = [acc.reverse] := rfl

theorem splitNLAux_nl (acc rest : List Char) :
    splitNLAux acc ('\n' :: rest) = acc.reverse :: splitNLAux [] rest := by
  simp [splitNLAux]

theorem splitNLAux_other {c : Char} (h : c ≠ '\n') (acc rest : List Char) :
    splitNLAux acc (c :: rest) = splitNLAux (c :: acc) rest := by
  simp [splitNLAux, h]

/-! ## Normalization: trimming lemmas -/

theorem dropWhile_idem (p : Char → Bool) (l : List Char) :
    (l.dropWhile p).dropWhile p = l.dropWhile p := by
  induction l with
  | nil => rfl
  | cons c l ih =>
    by_cases h : p c
    · simp [List.dropWhile_cons, h, ih]
    · simp [List.dropWhile_cons, h]

theorem dropWhile_sub (p : Char → Bool) (l : List Char) :
    ∃ u, u ++ l.dropWhile p = l := by
  induction l with
  | nil => exact ⟨[], rfl⟩
  | cons c l ih =>
    by_cases h : p c
    · obtain ⟨u, hu⟩ := ih
      exact ⟨c :: u, by simp [List.dropWhile_cons, h, hu]⟩
    · exact ⟨[], by simp [List.dropWhile_cons, h]⟩

theorem trimRight_idem (l : List Char) :
    jsTrimRightData (jsTrimRightData l) = jsTrimRightData l := by
  unfold jsTrimRightData
  rw [List.reverse_reverse, dropWhile_idem]

theorem trimRight_extend (l : List Char) : ∃ u, jsTrimRightData l ++ u = l := by
  obtain ⟨u, hu⟩ := dropWhile_sub jsIsWhitespace l.reverse
  refine ⟨u.reverse, ?_⟩
  have h2 := congrArg List.reverse hu
  simpa [jsTrimRightData] using h2

theorem mem_trimRight {c : Char} {l : List Char} (h : c ∈ jsTrimRightData l) : c ∈ l := by
  obtain ⟨u, hu⟩ := trimRight_extend l
  rw [← hu]
  exact List.mem_append_left _ h

theorem trim_fixed_reverse {m : List Char} (h : jsTrimRightData m = m) :
    m.reverse.dropWhile jsIsWhitespace = m.reverse := by
  have h2 := congrArg List.reverse h
  simpa [jsTrimRightData] using h2

theorem wsLast_append_single (w : Bool) (l : List Char) (d : Char) :
    wsLast w (l ++ [d]) = jsIsWhitespace d := by
  unfold wsLast
  rw [List.foldl_append]
  rfl

theorem wsLast_of_fixed (m : List Char) (hne : m ≠ []) (hfix : jsTrimRightData m = m)
    (w : Bool) : wsLast w m = false := by
  have hrev : m.reverse.dropWhile jsIsWhitespace = m.reverse := trim_fixed_reverse hfix
  have hrne : m.reverse ≠ [] := by simpa using hne
  obtain ⟨d, ds, hds⟩ := List.exists_cons_of_ne_nil hrne
  have hd : jsIsWhitespace d = false := by
    rw [hds, List.dropWhile_cons] at hrev
    by_contra hcon
    have hdt : jsIsWhitespace d = true := by simpa using hcon
    rw [if_pos hdt] at hrev
    have hlen : (d :: ds).length ≤ ds.length := by
      rw [← hrev]
      exact (List.dropWhile_sublist _).length_le
    simp at hlen
  have hm2 : m = ds.reverse ++ [d] := by
    have h3 := congrArg List.reverse hds
    simpa using h3
  rw [hm2, wsLast_append_single, hd]

/-! ## Normalization: the scan invariant -/

theorem goodAux_append : ∀ (m : List Char), '\n' ∉ m →
    ∀ (w : Bool) (t : List Char), goodAux w (m ++ t) = goodAux (wsLast w m) t
  | [], _, _, _ => rfl
  | c :: m, hm, w, t => by
    have hc : c ≠ '\n' := by
      intro h
      exact hm (by simp [h])
    rw [List.cons_append, goodAux_other hc]
    exact goodAux_append m (fun h => hm (List.mem_cons_of_mem _ h)) (jsIsWhitespace c) t

theorem good_joinNL : ∀ (ls : List (List Char)),
    (∀ m ∈ ls, '\n' ∉ m ∧ jsTrimRightData m = m) → good (joinNL ls) = true
  | [], _ => rfl
  | [m], h => by
    have hm := h m (by simp)
    have ha := goodAux_append m hm.1 false []
    rw [List.append_nil] at ha
    show goodAux false m = true
    rw [ha, goodAux_nil]
    by_cases hne : m = []
    · subst hne; rfl
    · rw [wsLast_of_fixed m hne hm.2 false]
      rfl
  | m :: m2 :: ls, h => by
    have hm := h m (by simp)
    have hjoin : joinNL (m :: m2 :: ls) = m ++ '\n' :: joinNL (m2 :: ls) := rfl
    show goodAux false (joinNL (m :: m2 :: ls)) = true
    rw [hjoin, goodAux_append m hm.1 false, goodAux_nl]
    have h2 : goodAux false (joinNL (m2 :: ls)) = true :=
      good_joinNL (m2 :: ls) (fun m' hm' => h m' (List.mem_cons_of_mem _ hm'))
    rw [h2]
    by_cases hne : m = []
    · subst hne; rfl
    · rw [wsLast_of_fixed m hne hm.2 false]
      rfl

theorem goodAux_collapseAux : ∀ (u : List Char) (n : Nat) (w : Bool),
    goodAux w u = true → goodAux w (collapseAux n u) = true
  | [], _, _, h => h
  | c :: rest, n, w, h => by
    by_cases hc : c = '\n'
    · subst hc
      rw [goodAux_nl] at h
      obtain ⟨hw, hrest⟩ := Bool.and_eq_true_iff.mp h
      have hw' : w = false := by simpa using hw
      subst hw'
      by_cases hn : 2 ≤ n
      · rw [collapseAux_nl_ge _ _ hn]
        exact goodAux_collapseAux rest n false hrest
      · rw [collapseAux_nl_lt _ _ hn, goodAux_nl]
        have h3 := goodAux_collapseAux rest (n + 1) false hrest
        rw [h3]
        rfl
    · rw [goodAux_other hc] at h
      rw [collapseAux_other hc, goodAux_other hc]
      exact goodAux_collapseAux rest 0 (jsIsWhitespace c) h

theorem collapseAux_idem : ∀ (u : List Char) (n : Nat),
    collapseAux n (collapseAux n u) = collapseAux n u
  | [], _ => rfl
  | c :: rest, n => by
    by_cases hc : c = '\n'
    · subst hc
      by_cases hn : 2 ≤ n
      · rw [collapseAux_nl_ge _ _ hn]
        exact collapseAux_idem rest n
      · have h1 : collapseAux n ('\n' :: rest) = '\n' :: collapseAux (n + 1) rest :=
          collapseAux_nl_lt _ _ hn
        rw [h1, collapseAux_nl_lt _ _ hn, collapseAux_idem rest (n + 1)]
    · have h1 : collapseAux n (c :: rest) = c :: collapseAux 0 rest := collapseAux_other hc _ _
      rw [h1, collapseAux_other hc, collapseAux_idem rest 0]

theorem good_removeCRLF : ∀ (l : List Char) (w : Bool),
    goodAux w l = true → removeCRLF l = l
  | [], _, _ => rfl
  | [_], _, _ => rfl
  | c :: c2 :: rest, w, h => by
    by_cases hc : c = '\r' ∧ c2 = '\n'
    · exfalso
      obtain ⟨h1, h2⟩ := hc
      subst h1
      subst h2
      rw [goodAux_other (by decide), goodAux_nl] at h
      have hws : jsIsWhitespace '\r' = true := by decide
      rw [hws] at h
      simp at h
    · rw [removeCRLF_two hc]
      by_cases hn : c = '\n'
      · subst hn
        rw [goodAux_nl] at h
        obtain ⟨_, h2⟩ := Bool.and_eq_true_iff.mp h
        rw [good_removeCRLF (c2 :: rest) false h2]
      · rw [goodAux_other hn] at h
        rw [good_removeCRLF (c2 :: rest) _ h]

/-! ## Normalization: splitting lemmas -/

theorem splitNLAux_ne_nil : ∀ (l acc : List Char), splitNLAux acc l ≠ []
  | [], acc => by simp [splitNLAux_nil]
  | c :: rest, acc => by
    by_cases h : c = '\n'
    · subst h
      rw [splitNLAux_nl]
      simp
    · rw [splitNLAux_other h]
      exact splitNLAux_ne_nil rest (c :: acc)

theorem joinNL_cons (m : List Char) (ls : List (List Char)) (h : ls ≠ []) :
    joinNL (m :: ls) = m ++ '\n' :: joinNL ls := by
  cases ls with
  | nil => exact absurd rfl h
  | cons a ls => rfl

theorem joinNL_splitNLAux : ∀ (l acc : List Char),
    joinNL (splitNLAux acc l) = acc.reverse ++ l
  | [], acc => by rw [splitNLAux_nil]; simp [joinNL]
  | c :: rest, acc => by
    by_cases h : c = '\n'
    · subst h
      rw [splitNLAux_nl, joinNL_cons _ _ (splitNLAux_ne_nil rest []),
        joinNL_splitNLAux rest []]
      simp
    · rw [splitNLAux_other h, joinNL_splitNLAux rest (c :: acc)]
      simp

theorem mem_splitNLAux_no_newline : ∀ (l acc : List Char), '\n' ∉ acc →
    ∀ m ∈ splitNLAux acc l, '\n' ∉ m
  | [], acc, hacc, m, hm => by
    rw [splitNLAux_nil] at hm
    simp at hm
    subst hm
    simpa using hacc
  | c :: rest, acc, hacc, m, hm => by
    by_cases h : c = '\n'
    · subst h
      rw [splitNLAux_nl] at hm
      rcases List.mem_cons.mp hm with hm | hm
      · subst hm
        simpa using hacc
      · exact mem_splitNLAux_no_newline rest [] (by simp) m hm
    · rw [splitNLAux_other h] at hm
      refine mem_splitNLAux_no_newline rest (c :: acc) ?_ m hm
      intro hx
      rcases List.mem_cons.mp hx with hx | hx
      · exact h hx.symm
      · exact hacc hx

theorem splitNLAux_fixed : ∀ (l acc : List Char) (w : Bool),
    goodAux w l = true →
    (w = false → acc.dropWhile jsIsWhitespace = acc) →
    ∀ m ∈ splitNLAux acc l, jsTrimRightData m = m
  | [], acc, w, h, hacc, m, hm => by
    rw [splitNLAux_nil] at hm
    simp at hm
    subst hm
    have hw : w = false := by simpa [goodAux_nil] using h
    unfold jsTrimRightData
    rw [List.reverse_reverse, hacc hw]
  | c :: rest, acc, w, h, hacc, m, hm => by
    by_cases hn : c = '\n'
    · subst hn
      rw [goodAux_nl] at h
      obtain ⟨hw, hrest⟩ := Bool.and_eq_true_iff.mp h
      have hw' : w = false := by simpa using hw
      rw [splitNLAux_nl] at hm
      rcases List.mem_cons.mp hm with hm | hm
      · subst hm
        unfold jsTrimRightData
        rw [List.reverse_reverse, hacc hw']
      · exact splitNLAux_fixed rest [] false hrest (fun _ => rfl) m hm
    · rw [goodAux_other hn] at h
      rw [splitNLAux_other hn] at hm
      refine splitNLAux_fixed rest (c :: acc) (jsIsWhitespace c) h ?_ m hm
      intro hwc
      rw [List.dropWhile_cons, if_neg (by simp [hwc])]

theorem good_lines_fixed {t : List Char} (h : good t = true) :
    ∀ m ∈ splitNL t, jsTrimRightData m = m :=
  splitNLAux_fixed t [] false h (fun _ => rfl)

theorem map_trim_of_fixed : ∀ (xs : List (List Char)),
    (∀ m ∈ xs, jsTrimRightData m = m) → xs.map jsTrimRightData = xs
  | [], _ => rfl
  | x :: xs, h => by
    rw [List.map_cons, h x (by simp), map_trim_of_fixed xs (fun m hm => h m (List.mem_cons_of_mem _ hm))]

/-- Idempotence at the character-list level. -/
theorem normalizeChars_idem (l : List Char) :
    normalizeChars (normalizeChars l) = normalizeChars l := by
  have hprops : ∀ m ∈ (splitLines l).map jsTrimRightData,
      '\n' ∉ m ∧ jsTrimRightData m = m := by
    intro m hm
    obtain ⟨m0, hm0, rfl⟩ := List.mem_map.mp hm
    refine ⟨?_, trimRight_idem m0⟩
    intro hmem
    exact mem_splitNLAux_no_newline (removeCRLF l) [] (by simp) m0 hm0 (mem_trimRight hmem)
  have hgu : good (joinNL ((splitLines l).map jsTrimRightData)) = true :=
    good_joinNL _ hprops
  have hgt : good (normalizeChars l) = true := goodAux_collapseAux _ 0 false hgu
  set t := normalizeChars l with ht
  show normalizeChars t = t
  unfold normalizeChars
  rw [show splitLines t = splitNL t from by
        unfold splitLines
        rw [good_removeCRLF t false hgt]]
  rw [map_trim_of_fixed _ (good_lines_fixed hgt)]
  rw [show joinNL (splitNL t) = t from joinNL_splitNLAux t []]
  rw [ht]
  unfold normalizeChars collapseNL
  exact collapseAux_idem _ 0

/-- Claim C6: the output normalization (strip every line's trailing whitespace,
then collapse runs of three or more newlines to exactly two) is idempotent:
applying it twice to any text yields the same string as applying it once. -/
theorem normalize_idempotent (s : String) :
    normalizeText (normalizeText s) = normalizeText s := by
  show String.mk (normalizeChars (normalizeChars s.data)) = String.mk (normalizeChars s.data)
  rw [normalizeChars_idem]

/-! ## Candidate-appending lemmas -/

theorem dropWhile_head_false {p : Char → Bool} : ∀ (l : List Char) {c : Char} {rest : List Char},
    l.dropWhile p = c :: rest → p c = false
  | [], c, rest, h => by simp at h
  | a :: l, c, rest, h => by
    rw [List.dropWhile_cons] at h
    cases hp : p a with
    | true =>
      rw [hp] at h
      simp at h
      exact dropWhile_head_false l h
    | false =>
      rw [hp] at h
      simp at h
      obtain ⟨h1, _⟩ := h
      subst h1
      exact hp

theorem jsTrimData_idem (l : List Char) : jsTrimData (jsTrimData l) = jsTrimData l := by
  show jsTrimRightData ((jsTrimData l).dropWhile jsIsWhitespace) = jsTrimData l
  have hfix : (jsTrimData l).dropWhile jsIsWhitespace = jsTrimData l := by
    show (jsTrimRightData (l.dropWhile jsIsWhitespace)).dropWhile jsIsWhitespace
        = jsTrimRightData (l.dropWhile jsIsWhitespace)
    cases he : jsTrimRightData (l.dropWhile jsIsWhitespace) with
    | nil => rfl
    | cons c t =>
      obtain ⟨u, hu⟩ := trimRight_extend (l.dropWhile jsIsWhitespace)
      rw [he] at hu
      have hu2 : l.dropWhile jsIsWhitespace = c :: (t ++ u) := by
        rw [← hu]
        rfl
      have hc : jsIsWhitespace c = false := dropWhile_head_false l hu2
      rw [List.dropWhile_cons, if_neg (by simp [hc])]
  rw [hfix]
  show jsTrimRightData (jsTrimRightData (l.dropWhile jsIsWhitespace)) = _
  rw [trimRight_idem]
  rfl

theorem appendExt_shift (init : List String) (x : String) :
    appendExt init x = init ++ appendExt [] x := by
  unfold appendExt
  by_cases h : String.mk (jsTrimData x.data) = ""
  · simp [h]
  · simp [h]

theorem foldl_appendExt_append : ∀ (L : List String) (init : List String),
    L.foldl appendExt init = init ++ L.foldl appendExt []
  | [], init => by simp
  | x :: L, init => by
    rw [List.foldl_cons, List.foldl_cons, foldl_appendExt_append L (appendExt init x),
      foldl_appendExt_append L (appendExt [] x), appendExt_shift init x]
    simp [List.append_assoc]

theorem mem_appendExt_nil {x e : String} (h : e ∈ appendExt [] x) :
    String.mk (jsTrimData e.data) = e ∧ e ≠ "" := by
  unfold appendExt at h
  by_cases ht : String.mk (jsTrimData x.data) = ""
  · rw [if_pos ht] at h
    simp at h
  · rw [if_neg ht] at h
    simp at h
    subst h
    refine ⟨?_, ht⟩
    show String.mk (jsTrimData (jsTrimData x.data)) = _
    rw [jsTrimData_idem]

theorem mem_foldl_appendExt : ∀ (L : List String) (e : String),
    e ∈ L.foldl appendExt [] → String.mk (jsTrimData e.data) = e ∧ e ≠ ""
  | [], e, h => by simp at h
  | x :: L, e, h => by
    rw [List.foldl_cons, foldl_appendExt_append L (appendExt [] x)] at h
    rcases List.mem_append.mp h with h | h
    · exact mem_appendExt_nil h
    · exact mem_foldl_appendExt L e h

set_option maxHeartbeats 1600000 in
/-- Claim C5: construction registers plain-text, HTML, Wikipedia, YouTube, PDF
in that base order, so the effective trial order is PDF, YouTube, Wikipedia,
HTML, plain-text; consequently, for a Wikipedia URL with HTML content under
the `.html` candidate, the Wikipedia converter is reached (PDF and YouTube
decline) and wins over the generic HTML converter: the returned result is the
Wikipedia pipeline's, normalized. -/
theorem builtin_order_and_wikipedia_priority (o : Oracle) (path content : String)
    (hread : o.readFileUtf8 path = .ok content) :
    builtinRegistry o =
        [pdfConvert o, youtubeConvert o, wikipediaConvert o, htmlConvert o,
          plainTextConvert o] ∧
      convertCore (builtinRegistry o) path [".html"]
          { fileExtension := none, url := some "https://en.wikipedia.org/wiki/X", extra := [] } =
        .success (normalizeResult (o.wikiRender content)) := by
  refine ⟨rfl, ?_⟩
  have hg : htmlExtGate (setTrialExt
      { fileExtension := none, url := some "https://en.wikipedia.org/wiki/X", extra := [] }
      (some ".html")) = true := rfl
  have hu : wikipediaUrlMatch ((setTrialExt
      { fileExtension := none, url := some "https://en.wikipedia.org/wiki/X", extra := [] }
      (some ".html")).url.getD "") = true := rfl
  have h3 : runTrial path
      { fileExtension := none, url := some "https://en.wikipedia.org/wiki/X", extra := [] }
      (some ".html", wikipediaConvert o) = .success (o.wikiRender content) := by
    simp only [runTrial, wikipediaConvert, hg, hu, if_true, hread]
  have h1 : runTrial path
      { fileExtension := none, url := some "https://en.wikipedia.org/wiki/X", extra := [] }
      (some ".html", pdfConvert o) = .declined := rfl
  have h2 : runTrial path
      { fileExtension := none, url := some "https://en.wikipedia.org/wiki/X", extra := [] }
      (some ".html", youtubeConvert o) = .declined := rfl
  have hlist : trialList (extsToTry [".html"]) (builtinRegistry o) =
      (some ".html", pdfConvert o) :: (some ".html", youtubeConvert o) ::
        (some ".html", wikipediaConvert o) :: (some ".html", htmlConvert o) ::
        (some ".html", plainTextConvert o) :: (none, pdfConvert o) ::
        (none, youtubeConvert o) :: (none, wikipediaConvert o) ::
        (none, htmlConvert o) :: (none, plainTextConvert o) :: [] := rfl
  have key : dispatchLoop path
      { fileExtension := none, url := some "https://en.wikipedia.org/wiki/X", extra := [] }
      (trialList (extsToTry [".html"]) (builtinRegistry o)) "" = .ok (o.wikiRender content) := by
    rw [hlist]
    simp only [dispatchLoop, h1, h2, h3]
  unfold convertCore
  rw [key]

theorem builtin_order_and_wikipedia_priority_witness :
    constOracle.readFileUtf8 "p" = .ok "<html></html>" ∧
      convertCore (builtinRegistry constOracle) "p" [".html"]
          { fileExtension := none, url := some "https://en.wikipedia.org/wiki/X", extra := [] } =
        .success (normalizeResult (constOracle.wikiRender "<html></html>")) :=
  ⟨rfl, (builtin_order_and_wikipedia_priority constOracle "p" "<html></html>" rfl).2⟩

/-- Claim C7 (code bug): `convertResponse` computes
`lookup(contentType)` — but the `mime-types` `lookup` maps a *path* to a mime
type, not a mime type to an extension, so for `text/html` (or any type with a
slash and no dot in its subtype) it yields nothing and no content-type-derived
candidate is ever appended: for the response with content type `text/html`
and URL `http://example.com/page.php`, the candidate list is `[".php"]`,
`.html` is never tried, and dispatch with the built-in registry ends in
unsupported-format instead of succeeding via the HTML converter. -/
theorem content_type_candidate_missing (o : Oracle) :
    mimeLookup "text/html" = none ∧
      responseExtensions ⟨"text/html", "", some "http://example.com/page.php"⟩ {} = [".php"] ∧
      ".html" ∉ responseExtensions ⟨"text/html", "", some "http://example.com/page.php"⟩ {} ∧
      convertResponseModel o "tmp" ⟨"text/html", "", some "http://example.com/page.php"⟩ {} =
        .unsupportedFormat
          "Could not convert 'tmp' to Markdown. The formats .php are not supported." :=
  ⟨rfl, rfl, by decide, rfl⟩

/-- Claim C8 counterexample: with a `filename=a.php` content disposition and a
URL path ending in `.php`, the candidate list handed to the dispatch engine is
`[".php", ".php"]` — the same extension twice; duplicates are *not* filtered. -/
theorem duplicate_candidates_counterexample :
    responseExtensions ⟨"", "filename=a.php", some "http://example.com/b.php"⟩ {} =
        [".php", ".php"] ∧
      ¬ (responseExtensions ⟨"", "filename=a.php", some "http://example.com/b.php"⟩ {}).Nodup :=
  ⟨rfl, by decide⟩

/-- Claim C8, amended: the candidate list preserves insertion order — the
override seed first (pushed as given), then the source-derived candidates in
source order — and every source-derived candidate is appended only if
non-empty after trimming (and is stored trimmed); duplicates are *not*
filtered. -/
theorem candidates_trimmed_ordered (resp : ResponseModel) (opts : ConvertOptions) :
    responseExtensions resp opts =
        overrideExts opts ++ (responseCandidates resp).foldl appendExt [] ∧
      ∀ e ∈ (responseCandidates resp).foldl appendExt [],
        String.mk (jsTrimData e.data) = e ∧ e ≠ "" := by
  constructor
  · exact foldl_appendExt_append _ _
  · exact fun e he => mem_foldl_appendExt _ e he

/-- Claim C10: with only the five built-ins registered, every converter
declines whenever the `fileExtension` hint is absent, so the sentinel trial
can never succeed; an input with an empty candidate list (for instance a
local path without a dot and no override) always ends in unsupported-format. -/
theorem sentinel_never_succeeds (o : Oracle) (path : String) (opts : ConvertOptions)
    (hnodot : (jsSplitOnChar '.' path).length ≤ 1) (hnoov : opts.fileExtension = none) :
    (∀ c ∈ builtinRegistry o, ∀ (q : String) (opts' : ConvertOptions),
        opts'.fileExtension = none → c q opts' = .declined) ∧
      localExtensions path opts = [] ∧
      convertCore (builtinRegistry o) path [] opts =
        .unsupportedFormat ("Could not convert '" ++ path
          ++ "' to Markdown. The formats  are not supported.") := by
  have hdecl : ∀ c ∈ builtinRegistry o, ∀ (q : String) (opts' : ConvertOptions),
      opts'.fileExtension = none → c q opts' = .declined := by
    intro c hc q opts' hext
    have hmem : c = pdfConvert o ∨ c = youtubeConvert o ∨ c = wikipediaConvert o ∨
        c = htmlConvert o ∨ c = plainTextConvert o := by
      simpa [builtinRegistry, applyRegistrations, registerPageConverter] using hc
    rcases hmem with rfl | rfl | rfl | rfl | rfl
    · simp only [pdfConvert, hext, Option.getD_none]
      rfl
    · simp only [youtubeConvert, htmlExtGate, hext, Option.getD_none]
      rfl
    · simp only [wikipediaConvert, htmlExtGate, hext, Option.getD_none]
      rfl
    · simp only [htmlConvert, htmlExtGate, hext, Option.getD_none]
      rfl
    · simp only [plainTextConvert, hext, Option.getD_none]
      rfl
  refine ⟨hdecl, ?_, ?_⟩
  · unfold localExtensions
    rw [if_neg (by omega)]
    simp [overrideExts, hnoov]
  · have hall : ∀ t ∈ trialList (extsToTry []) (builtinRegistry o),
        runTrial path opts t = .declined := by
      intro t ht
      have hl : trialList (extsToTry []) (builtinRegistry o) =
          (builtinRegistry o).map (fun c => (none, c)) := rfl
      rw [hl] at ht
      obtain ⟨c, hc, rfl⟩ := List.mem_map.mp ht
      exact hdecl c hc path (setTrialExt opts none) rfl
    unfold convertCore
    rw [dispatchLoop_all_declined path opts _ "" hall]
    show DispatchResult.unsupportedFormat ("Could not convert '" ++ path
        ++ "' to Markdown. The formats " ++ String.intercalate "," [] ++ " are not supported.") = _
    rw [show String.intercalate "," ([] : List String) = "" from rfl]
    rw [String.append_empty]
    rw [String.append_assoc ("Could not convert '" ++ path) "' to Markdown. The formats " " are not supported."]
    rfl

theorem sentinel_never_succeeds_witness :
    (jsSplitOnChar '.' "README").length ≤ 1 ∧
      ({} : ConvertOptions).fileExtension = none ∧
      localExtensions "README" {} = [] ∧
      convertCore (builtinRegistry constOracle) "README" [] {} =
        .unsupportedFormat
          "Could not convert 'README' to Markdown. The formats  are not supported." := by
  have h := sentinel_never_succeeds constOracle "README" {} (by decide) rfl
  exact ⟨by decide, rfl, h.2.1, h.2.2⟩

end AnyToMd

